import Mathlib

/-!
Verification of the weighted lottery draw engine of `src/main.py`.

The lottery module keeps two in-memory lists, `lottery_candidates` and
`lottery_winners`.  `weighted_sample` performs `k` sequential weighted
selections without replacement, `draw_lottery` validates the request and
commits the result, `upload_lottery_file` ingests spreadsheet rows and
`reset_lottery` clears both lists.

Randomness model: `random.choices(pool, weights=weights, k=1)` draws a
uniform real `u` in `[0, 1)`, scales it by the total weight, and picks the
first index whose cumulative weight exceeds the scaled value (bisect over
the cumulative sums).  We embed the uniform stream as a function
`us : Nat -> Rat` supplying the value used at each step, with validity
`0 <= us n < 1`, and `chooseIdx` reproducing the cumulative-sum search.
-/

namespace YearEndParty

/-- A lottery candidate dictionary `{deptId, name, fullName}` as built by
`upload_lottery_file`.  Python compares these dictionaries by value, which
matches structural equality here. -/
structure Candidate where
  deptId : String
  name : String
  fullName : String
deriving DecidableEq, Repr, Inhabited

/-- Placeholder used to totalize list indexing; never reached on valid
uniform streams. -/
def defaultCandidate : Candidate := ⟨"", "", ""⟩

/-- Per-candidate weight from `weighted_sample`:
`2 if str(item.get("deptId")) == "7820" else 1.0`. -/
def weight (item : Candidate) : ℚ :=
  if item.deptId = "7820" then 2 else 1

/-- Index selected by `random.choices` for a scaled random value `r`:
the first index whose cumulative weight exceeds `r` (CPython bisects the
running sums of `weights`). -/
def chooseIdx : List ℚ → ℚ → ℕ
  | [], _ => 0
  | w :: ws, r => if r < w then 0 else chooseIdx ws (r - w) + 1

/-- Loop state of `weighted_sample`: runs the remaining `k` iterations at
step index `step` over the current `pool`, returning the selected list in
draw order together with the final pool.  `random.choices` on an empty
pool raises, modelled as `none`.  `pool.remove(chosen)` deletes the first
value-equal entry, modelled by `List.erase`. -/
def weightedSampleAux (us : ℕ → ℚ) : ℕ → ℕ → List Candidate →
    Option (List Candidate × List Candidate)
  | _, 0, pool => some ([], pool)
  | _, _ + 1, [] => none
  | step, k + 1, p :: ps =>
    let pool := p :: ps
    let ws := pool.map weight
    let chosen := pool.getD (chooseIdx ws (us step * ws.sum)) defaultCandidate
    (weightedSampleAux us (step + 1) k (pool.erase chosen)).map
      (fun q => (chosen :: q.1, q.2))

/-- `weighted_sample(items, k)`: draw `k` elements without replacement,
weighted; the uniform stream `us` supplies the randomness. -/
def weighted_sample (us : ℕ → ℚ) (items : List Candidate) (k : ℕ) :
    Option (List Candidate) :=
  (weightedSampleAux us 0 k items).map Prod.fst

/-- The two lottery globals of `main.py`. -/
structure LotteryState where
  lottery_candidates : List Candidate
  lottery_winners : List Candidate
deriving DecidableEq, Repr

/-- `draw_lottery(num_winners)`: validate, sample, append the winners to
`lottery_winners`, and rebuild `lottery_candidates` as
`[c for c in lottery_candidates if c not in winners]`.  Errors are the
HTTP 400 `HTTPException`s of the endpoint; `num_winners` is a Python
`int`, hence `ℤ`, and `range(num_winners)` iterates `max(num_winners, 0)`
times, hence `Int.toNat`. -/
def draw_lottery (us : ℕ → ℚ) (num_winners : ℤ) (s : LotteryState) :
    Except String (List Candidate × LotteryState) :=
  if s.lottery_candidates.length = 0 then
    Except.error "Danh sach boc tham trong"
  else if (s.lottery_candidates.length : ℤ) < num_winners then
    Except.error "khong the boc"
  else
    match weighted_sample us s.lottery_candidates num_winners.toNat with
    | none => Except.error "random.choices on empty pool"
    | some winners =>
      Except.ok (winners,
        { lottery_candidates :=
            s.lottery_candidates.filter (fun c => !(winners.contains c)),
          lottery_winners := s.lottery_winners ++ winners })

/-- `clean_text`: falsy input returned unchanged, otherwise the
carriage-return artifacts are replaced by spaces and the ends stripped. -/
def clean_text (text : String) : String :=
  if text = "" then text
  else ((((text.replace "_x000D_" " ").replace "\r" " ").replace "\n" " ")).trim

/-- Python truthiness of a spreadsheet cell: `None` and the empty string
are falsy (`if row[0] and row[1]`). -/
def cellTruthy : Option String → Bool
  | none => false
  | some s => !(s == "")

/-- One iteration of the ingestion loop of `upload_lottery_file`: keep the
row only when both cells are truthy, clean both cells, and derive
`fullName` as `f"{dept_id} - {name}"`. -/
def rowCandidate (row : Option String × Option String) : Option Candidate :=
  match row with
  | (some d, some n) =>
    if d = "" ∨ n = "" then none
    else
      some { deptId := clean_text d, name := clean_text n,
             fullName := clean_text d ++ " - " ++ clean_text n }
  | _ => none

/-- `upload_lottery_file`: rebuild `lottery_candidates` from the data rows
(header already skipped) and clear `lottery_winners`. -/
def upload_lottery_file (rows : List (Option String × Option String))
    (_s : LotteryState) : LotteryState :=
  { lottery_candidates := rows.filterMap rowCandidate,
    lottery_winners := [] }

/-- `reset_lottery`: empty both lists unconditionally. -/
def reset_lottery (_s : LotteryState) : LotteryState :=
  { lottery_candidates := [], lottery_winners := [] }

/-- The three state-mutating lottery endpoints. -/
inductive LotteryOp where
  | upload (rows : List (Option String × Option String))
  | draw (us : ℕ → ℚ) (num_winners : ℤ)
  | reset

/-- Effect of one endpoint call on the session state; a failed draw raises
before any mutation, leaving the state unchanged. -/
def applyOp (s : LotteryState) : LotteryOp → LotteryState
  | .upload rows => upload_lottery_file rows s
  | .draw us n =>
    match draw_lottery us n s with
    | .ok (_, s2) => s2
    | .error _ => s
  | .reset => reset_lottery s

/-- The module-level initial state: both globals start as `[]`. -/
def initState : LotteryState := ⟨[], []⟩

/-- State reached after a sequence of endpoint calls from startup. -/
def runOps (ops : List LotteryOp) : LotteryState :=
  ops.foldl applyOp initState

/-- A uniform stream is valid when every draw lies in `[0, 1)`, as
`random.random()` guarantees. -/
def validUniform (us : ℕ → ℚ) : Prop := ∀ n, 0 ≤ us n ∧ us n < 1

/-- The all-zeros uniform stream, used for concrete instantiations. -/
def usZero : ℕ → ℚ := fun _ => 0

/-- Concrete candidate from department 7820. -/
def cA : Candidate := ⟨"7820", "A", "7820 - A"⟩

/-- Concrete candidate from another department. -/
def cB : Candidate := ⟨"1000", "B", "1000 - B"⟩

/-- A second concrete candidate from another department. -/
def cC : Candidate := ⟨"1000", "C", "1000 - C"⟩

theorem usZero_valid : validUniform usZero := by
  intro n
  constructor
  · exact le_refl 0
  · norm_num [usZero]

theorem weight_pos (c : Candidate) : 0 < weight c := by
  unfold weight
  split <;> norm_num

theorem sum_weights_pos {pool : List Candidate} (h : pool ≠ []) :
    0 < (pool.map weight).sum := by
  apply List.sum_pos
  · intro x hx
    rcases List.mem_map.mp hx with ⟨c, _, rfl⟩
    exact weight_pos c
  · simpa using h

theorem sum_weights_nonneg (pool : List Candidate) :
    0 ≤ (pool.map weight).sum := by
  apply List.sum_nonneg
  intro x hx
  rcases List.mem_map.mp hx with ⟨c, _, rfl⟩
  exact (weight_pos c).le

theorem chooseIdx_lt {ws : List ℚ} {r : ℚ} (hpos : ∀ w ∈ ws, 0 < w)
    (hr0 : 0 ≤ r) (hr : r < ws.sum) : chooseIdx ws r < ws.length := by
  induction ws generalizing r with
  | nil => simp at hr; exact absurd (lt_of_le_of_lt hr0 hr) (lt_irrefl 0)
  | cons w ws ih =>
    unfold chooseIdx
    split
    · simp
    · rename_i hw
      have h1 : w ≤ r := le_of_not_lt hw
      have h2 : 0 ≤ r - w := by linarith
      have h3 : r - w < ws.sum := by
        simp only [List.sum_cons] at hr
        linarith
      have := ih (fun x hx => hpos x (List.mem_cons_of_mem w hx)) h2 h3
      simpa using Nat.succ_lt_succ this

theorem chooseIdx_interval {ws : List ℚ} (hpos : ∀ w ∈ ws, 0 < w)
    {r : ℚ} (hr0 : 0 ≤ r) (i : ℕ) :
    (chooseIdx ws r = i ∧ i < ws.length ↔
      ((ws.take i).sum ≤ r ∧ r < (ws.take (i + 1)).sum)) := by
  induction ws generalizing r i with
  | nil =>
    simp only [List.take_nil, List.sum_nil, List.length_nil]
    constructor
    · rintro ⟨-, h⟩; exact absurd h (Nat.not_lt_zero i)
    · rintro ⟨-, h⟩; exact absurd (lt_of_le_of_lt hr0 h) (lt_irrefl 0)
  | cons w ws ih =>
    have hwpos : 0 < w := hpos w (List.mem_cons_self w ws)
    have hpos2 : ∀ x ∈ ws, 0 < x := fun x hx => hpos x (List.mem_cons_of_mem w hx)
    cases i with
    | zero =>
      have h1 : (((w :: ws).take 0).sum : ℚ) = 0 := by simp
      have h2 : (((w :: ws).take (0 + 1)).sum : ℚ) = w := by simp
      rw [h1, h2]
      unfold chooseIdx
      constructor
      · rintro ⟨hc, -⟩
        refine ⟨hr0, ?_⟩
        by_contra hcon
        rw [if_neg hcon] at hc
        exact Nat.succ_ne_zero _ hc
      · rintro ⟨-, hlt⟩
        exact ⟨if_pos hlt, Nat.succ_pos _⟩
    | succ j =>
      have htk : ∀ m : ℕ, ((w :: ws).take (m + 1)).sum = w + (ws.take m).sum := by
        intro m; simp [List.take_cons, List.sum_cons]
      rw [htk j, htk (j + 1)]
      unfold chooseIdx
      by_cases hw : r < w
      · rw [if_pos hw]
        constructor
        · rintro ⟨hc, -⟩; exact absurd hc.symm (Nat.succ_ne_zero j)
        · rintro ⟨hle, -⟩
          have : 0 ≤ (ws.take j).sum :=
            List.sum_nonneg fun x hx => (hpos2 x (List.mem_of_mem_take hx)).le
          linarith
      · rw [if_neg hw]
        have hwr : w ≤ r := le_of_not_lt hw
        have h2 : 0 ≤ r - w := by linarith
        have := ih hpos2 h2 j
        constructor
        · rintro ⟨hc, hlen⟩
          have hj : chooseIdx ws (r - w) = j := Nat.succ_injective hc
          have hjlen : j < ws.length := by simpa using hlen
          rcases this.mp ⟨hj, hjlen⟩ with ⟨ha, hb⟩
          constructor <;> linarith
        · rintro ⟨ha, hb⟩
          have ha2 : (ws.take j).sum ≤ r - w := by linarith
          have hb2 : r - w < (ws.take (j + 1)).sum := by linarith
          rcases this.mpr ⟨ha2, hb2⟩ with ⟨hc, hlen⟩
          exact ⟨by simp [hc], by simpa using Nat.succ_lt_succ hlen⟩

theorem map_weight_pos (pool : List Candidate) :
    ∀ w ∈ pool.map weight, 0 < w := by
  intro x hx
  rcases List.mem_map.mp hx with ⟨c, _, rfl⟩
  exact weight_pos c

theorem scaled_uniform_bounds {us : ℕ → ℚ} (hus : validUniform us) (step : ℕ)
    {pool : List Candidate} (hne : pool ≠ []) :
    0 ≤ us step * (pool.map weight).sum ∧
      us step * (pool.map weight).sum < (pool.map weight).sum := by
  have hsum : 0 < (pool.map weight).sum := sum_weights_pos hne
  exact ⟨mul_nonneg (hus step).1 hsum.le,
    mul_lt_of_lt_one_left hsum (hus step).2⟩

theorem chooseIdx_lt_length {us : ℕ → ℚ} (hus : validUniform us) (step : ℕ)
    {pool : List Candidate} (hne : pool ≠ []) :
    chooseIdx (pool.map weight) (us step * (pool.map weight).sum) <
      pool.length := by
  rcases scaled_uniform_bounds hus step hne with ⟨h0, h1⟩
  have := chooseIdx_lt (map_weight_pos pool) h0 h1
  simpa using this

theorem weightedSampleAux_spec {us : ℕ → ℚ} (hus : validUniform us) :
    ∀ (k step : ℕ) (pool : List Candidate), k ≤ pool.length →
      ∃ sel fin, weightedSampleAux us step k pool = some (sel, fin) ∧
        sel.length = k ∧ pool.Perm (sel ++ fin) := by
  intro k
  induction k with
  | zero =>
    intro step pool _
    exact ⟨[], pool, rfl, rfl, by simp⟩
  | succ k ih =>
    intro step pool hk
    match pool, hk with
    | p :: ps, hk =>
      have hne : (p :: ps : List Candidate) ≠ [] := by simp
      have hidx : chooseIdx ((p :: ps).map weight)
          (us step * ((p :: ps).map weight).sum) < (p :: ps).length :=
        chooseIdx_lt_length hus step hne
      have hchosen : (p :: ps).getD (chooseIdx ((p :: ps).map weight)
            (us step * ((p :: ps).map weight).sum)) defaultCandidate =
          (p :: ps).get ⟨_, hidx⟩ :=
        List.getD_eq_get _ _ hidx
      have hmem : (p :: ps).getD (chooseIdx ((p :: ps).map weight)
            (us step * ((p :: ps).map weight).sum)) defaultCandidate ∈ p :: ps := by
        rw [hchosen]
        exact List.get_mem _ _ _
      have herase : ((p :: ps).erase ((p :: ps).getD (chooseIdx ((p :: ps).map weight)
            (us step * ((p :: ps).map weight).sum)) defaultCandidate)).length =
          (p :: ps).length - 1 :=
        List.length_erase_of_mem hmem
      have hk2 : k ≤ ((p :: ps).erase ((p :: ps).getD (chooseIdx ((p :: ps).map weight)
          (us step * ((p :: ps).map weight).sum)) defaultCandidate)).length := by
        rw [herase]
        simp only [List.length_cons] at hk ⊢
        omega
      rcases ih (step + 1) _ hk2 with ⟨sel, fin, heq, hlen, hperm⟩
      refine ⟨(p :: ps).getD (chooseIdx ((p :: ps).map weight)
          (us step * ((p :: ps).map weight).sum)) defaultCandidate :: sel, fin,
        ?_, by simp [hlen], ?_⟩
      · simp only [weightedSampleAux]
        rw [heq]
        rfl
      · exact (List.perm_cons_erase hmem).trans (hperm.cons _)

theorem perm_filter_of_nodup {l sel fin : List Candidate} (hnd : l.Nodup)
    (hp : l.Perm (sel ++ fin)) :
    l.Perm (sel ++ l.filter (fun c => !(sel.contains c))) := by
  rw [List.perm_iff_count]
  intro x
  have hcount : List.count x l = List.count x sel + List.count x fin := by
    simpa [List.count_append] using List.perm_iff_count.mp hp x
  have hle : List.count x l ≤ 1 := List.nodup_iff_count_le_one.mp hnd x
  rw [List.count_append]
  by_cases hx : x ∈ sel
  · have h1 : 0 < List.count x sel := List.count_pos_iff.mpr hx
    have hnotmem : x ∉ l.filter (fun c => !(sel.contains c)) := by
      intro hmem
      have := (List.mem_filter.mp hmem).2
      simp [hx] at this
    rw [List.count_eq_zero.mpr hnotmem]
    omega
  · have h0 : List.count x sel = 0 := List.count_eq_zero.mpr hx
    have hcf : List.count x (l.filter (fun c => !(sel.contains c))) =
        List.count x l := by
      apply List.count_filter
      simp [hx]
    rw [h0, hcf]
    omega

theorem draw_lottery_ok_spec {us : ℕ → ℚ} (hus : validUniform us) (k : ℕ)
    (s : LotteryState) (hne : s.lottery_candidates ≠ [])
    (hk : k ≤ s.lottery_candidates.length) :
    ∃ w, w.length = k ∧
      draw_lottery us (k : ℤ) s = Except.ok (w,
        ⟨s.lottery_candidates.filter (fun c => !(w.contains c)),
         s.lottery_winners ++ w⟩) ∧
      ∃ fin, s.lottery_candidates.Perm (w ++ fin) := by
  rcases weightedSampleAux_spec hus k 0 s.lottery_candidates hk with
    ⟨sel, fin, heq, hlen, hperm⟩
  refine ⟨sel, hlen, ?_, fin, hperm⟩
  have h0 : ¬(s.lottery_candidates.length = 0) := by
    simpa [List.length_eq_zero] using hne
  have h1 : ¬((s.lottery_candidates.length : ℤ) < (k : ℤ)) :=
    not_lt.mpr (by exact_mod_cast hk)
  unfold draw_lottery
  rw [if_neg h0, if_neg h1]
  have htn : ((k : ℤ)).toNat = k := Int.toNat_ofNat k
  unfold weighted_sample
  rw [htn, heq]
  rfl

theorem draw_lottery_ok_inv {us : ℕ → ℚ} {n : ℤ} {s : LotteryState}
    {w : List Candidate} {s2 : LotteryState}
    (h : draw_lottery us n s = Except.ok (w, s2)) :
    s2.lottery_candidates =
        s.lottery_candidates.filter (fun c => !(w.contains c)) ∧
      s2.lottery_winners = s.lottery_winners ++ w := by
  unfold draw_lottery at h
  split at h
  · cases h
  · split at h
    · cases h
    · split at h
      · cases h
      · rename_i winners heq
        injection h with h2
        obtain ⟨h3, h4⟩ := Prod.mk.inj h2
        subst h3
        subst h4
        exact ⟨rfl, rfl⟩

theorem draw_lottery_error_iff {us : ℕ → ℚ} (hus : validUniform us)
    (n : ℤ) (s : LotteryState) :
    (∃ e, draw_lottery us n s = Except.error e) ↔
      (s.lottery_candidates = [] ∨ (s.lottery_candidates.length : ℤ) < n) := by
  constructor
  · rintro ⟨e, he⟩
    by_contra hcon
    push_neg at hcon
    obtain ⟨hne, hlen⟩ := hcon
    have hk : n.toNat ≤ s.lottery_candidates.length := by omega
    rcases weightedSampleAux_spec hus n.toNat 0 s.lottery_candidates hk with
      ⟨sel, fin, heq, -, -⟩
    have h0 : ¬(s.lottery_candidates.length = 0) := by
      simpa [List.length_eq_zero] using hne
    unfold draw_lottery at he
    rw [if_neg h0, if_neg (not_lt.mpr hlen)] at he
    unfold weighted_sample at he
    rw [heq] at he
    cases he
  · intro h
    unfold draw_lottery
    by_cases h0 : s.lottery_candidates.length = 0
    · rw [if_pos h0]
      exact ⟨_, rfl⟩
    · rw [if_neg h0]
      have hlt : (s.lottery_candidates.length : ℤ) < n := by
        rcases h with h | h
        · exact absurd (by simp [h]) h0
        · exact h
      rw [if_pos hlt]
      exact ⟨_, rfl⟩

theorem draw_lottery_error_of_invalid {n : ℤ} {s : LotteryState}
    (h : s.lottery_candidates = [] ∨ (s.lottery_candidates.length : ℤ) < n)
    (us : ℕ → ℚ) : ∃ e, draw_lottery us n s = Except.error e := by
  unfold draw_lottery
  by_cases h0 : s.lottery_candidates.length = 0
  · rw [if_pos h0]
    exact ⟨_, rfl⟩
  · rw [if_neg h0]
    have hlt : (s.lottery_candidates.length : ℤ) < n := by
      rcases h with h | h
      · exact absurd (by simp [h]) h0
      · exact h
    rw [if_pos hlt]
    exact ⟨_, rfl⟩

/-- C3 counterexample: the claim says a draw with k = 0 fails with an
`InvalidDrawRequest` error, but on a non-empty roster the code does not
validate k = 0 and the request succeeds with an empty winners list and an
unchanged state. -/
theorem C3_zero_draw_counterexample :
    draw_lottery usZero 0 ⟨[cB], []⟩ = Except.ok ([], ⟨[cB], []⟩) := by
  norm_num +decide [draw_lottery, weighted_sample, weightedSampleAux, weight,
    chooseIdx, usZero, cB, defaultCandidate, List.erase, List.filter]

/-- C3 (amended): a draw request fails with an `InvalidDrawRequest` error
(HTTP 400) exactly when the roster is empty or k exceeds the roster size;
a request with k = 0 against a non-empty roster succeeds.  In every
failure case no partial result is produced (the call returns only the
error). -/
theorem C3_error_exactly_empty_or_oversized (us : ℕ → ℚ) (n : ℤ)
    (s : LotteryState) (hus : validUniform us) :
    (∃ e, draw_lottery us n s = Except.error e) ↔
      (s.lottery_candidates = [] ∨ (s.lottery_candidates.length : ℤ) < n) :=
  draw_lottery_error_iff hus n s

/-- C3 witness: on the empty initial roster a draw of one winner fails. -/
theorem C3_error_exactly_empty_or_oversized_witness :
    (∃ e, draw_lottery usZero 1 initState = Except.error e) ↔
      (initState.lottery_candidates = [] ∨
        (initState.lottery_candidates.length : ℤ) < 1) :=
  C3_error_exactly_empty_or_oversized usZero 1 initState usZero_valid

/-- C4: at every selection step, each pool member's weight is 2 when its
deptId equals "7820" and 1 otherwise; the weight is a fixed function of
the candidate alone, so no input of the draw request configures it. -/
theorem C4_weight_policy (pool : List Candidate) (i : ℕ)
    (hi : i < pool.length) :
    (pool.map weight).getD i 0 =
      (if (pool.getD i defaultCandidate).deptId = "7820" then (2 : ℚ) else 1) ∧
    ∀ c : Candidate, weight c = (if c.deptId = "7820" then (2 : ℚ) else 1) := by
  constructor
  · have h2 : i < (pool.map weight).length := by simpa using hi
    rw [List.getD_eq_getElem _ _ h2, List.getD_eq_getElem _ _ hi,
      List.getElem_map]
    rfl
  · intro c
    rfl

/-- C4 witness: weights over the concrete pool `[cA, cB]`. -/
theorem C4_weight_policy_witness :
    (([cA, cB].map weight).getD 0 0 =
      (if (([cA, cB].getD 0 defaultCandidate)).deptId = "7820"
        then (2 : ℚ) else 1)) ∧
    ∀ c : Candidate, weight c = (if c.deptId = "7820" then (2 : ℚ) else 1) :=
  C4_weight_policy [cA, cB] 0 (by decide)

/-- C7: when a draw request is invalid (empty roster or oversized
request), the call fails and the session state is unchanged. -/
theorem C7_failed_draw_preserves_state (us : ℕ → ℚ) (n : ℤ)
    (s : LotteryState)
    (h : s.lottery_candidates = [] ∨ (s.lottery_candidates.length : ℤ) < n) :
    (∃ e, draw_lottery us n s = Except.error e) ∧
      applyOp s (LotteryOp.draw us n) = s := by
  have herr := draw_lottery_error_of_invalid h us
  refine ⟨herr, ?_⟩
  rcases herr with ⟨e, he⟩
  simp only [applyOp]
  rw [he]

/-- C7 witness: a failed draw on the empty initial state changes
nothing. -/
theorem C7_failed_draw_preserves_state_witness :
    (∃ e, draw_lottery usZero 1 initState = Except.error e) ∧
      applyOp initState (LotteryOp.draw usZero 1) = initState :=
  C7_failed_draw_preserves_state usZero 1 initState (Or.inl rfl)

/-- C9: reset always succeeds (it is a total operation with no error
outcome), leaves both collections empty, and is idempotent. -/
theorem C9_reset_empties_and_idempotent (s : LotteryState) :
    (reset_lottery s).lottery_candidates = [] ∧
    (reset_lottery s).lottery_winners = [] ∧
    reset_lottery (reset_lottery s) = reset_lottery s :=
  ⟨rfl, rfl, rfl⟩

/-- C10: a draw request for a non-positive number of winners against a
non-empty roster does not fail: it returns an empty winners list and
leaves the state exactly as it was. -/
theorem C10_nonpositive_draw_is_noop (us : ℕ → ℚ) (n : ℤ) (s : LotteryState)
    (hn : n ≤ 0) (hne : s.lottery_candidates ≠ []) :
    draw_lottery us n s = Except.ok ([], s) := by
  have h0 : ¬(s.lottery_candidates.length = 0) := by
    simpa [List.length_eq_zero] using hne
  have h1 : ¬((s.lottery_candidates.length : ℤ) < n) := by
    have : 0 < s.lottery_candidates.length := Nat.pos_of_ne_zero h0
    omega
  unfold draw_lottery
  rw [if_neg h0, if_neg h1, Int.toNat_of_nonpos hn]
  unfold weighted_sample
  show Except.ok _ = _
  have hfo : s.lottery_candidates.filter
      (fun c => !(([] : List Candidate).contains c)) = s.lottery_candidates := by
    simp
  rw [hfo]
  simp

/-- C10 witness: drawing zero winners from `[cB]` is a no-op. -/
theorem C10_nonpositive_draw_is_noop_witness :
    draw_lottery usZero 0 ⟨[cB], []⟩ = Except.ok ([], ⟨[cB], []⟩) :=
  C10_nonpositive_draw_is_noop usZero 0 ⟨[cB], []⟩ (by decide)
    (by simp)

/-- C1 counterexample: on the duplicate roster `[cB, cB]` a draw of one
winner rebuilds the roster with `c not in winners`, which removes every
value-equal copy: the remaining roster has length 0 instead of
|R| - k = 1, and the original roster is not a value-permutation of the
winners together with the remainder. -/
theorem C1_duplicate_roster_counterexample :
    draw_lottery usZero 1 ⟨[cB, cB], []⟩ = Except.ok ([cB], ⟨[], [cB]⟩) ∧
    ¬(([] : List Candidate).length = ([cB, cB] : List Candidate).length - 1) ∧
    ¬(([cB, cB] : List Candidate).Perm ([cB] ++ ([] : List Candidate))) := by
  refine ⟨?_, by decide, by decide⟩
  norm_num +decide [draw_lottery, weighted_sample, weightedSampleAux, weight,
    chooseIdx, usZero, cB, defaultCandidate, List.erase, List.filter]

/-- C1 (amended): for every roster of pairwise-distinct candidate values
and every k with 1 ≤ k ≤ |R|, the draw returns exactly k winners, the
remaining roster has length |R| - k, the original roster is a
value-permutation of the winners together with the remainder, and a
second draw of k2 with k + k2 ≤ |R| leaves a final roster of size
|R| - k - k2. -/
theorem C1_draw_partitions_nodup_roster (us : ℕ → ℚ) (R W : List Candidate)
    (k : ℕ) (hnd : R.Nodup) (hus : validUniform us) (hk1 : 1 ≤ k)
    (hk : k ≤ R.length) :
    ∃ w rem, draw_lottery us (k : ℤ) ⟨R, W⟩ = Except.ok (w, ⟨rem, W ++ w⟩) ∧
      w.length = k ∧ rem.length = R.length - k ∧ R.Perm (w ++ rem) ∧
      ∀ (us2 : ℕ → ℚ) (k2 : ℕ), validUniform us2 → 1 ≤ k2 →
        k + k2 ≤ R.length →
        ∃ w2 rem2, draw_lottery us2 (k2 : ℤ) ⟨rem, W ++ w⟩ =
            Except.ok (w2, ⟨rem2, (W ++ w) ++ w2⟩) ∧
          w2.length = k2 ∧ rem2.length = R.length - k - k2 := by
  have hne : R ≠ [] := by
    intro hR
    rw [hR] at hk
    simp at hk
    omega
  rcases draw_lottery_ok_spec hus k ⟨R, W⟩ hne hk with
    ⟨w, hlen, heq, fin, hperm⟩
  have hpf : R.Perm (w ++ R.filter (fun c => !(w.contains c))) :=
    perm_filter_of_nodup hnd hperm
  have hlenR : R.length = w.length + (R.filter (fun c => !(w.contains c))).length := by
    simpa [List.length_append] using hpf.length_eq
  refine ⟨w, R.filter (fun c => !(w.contains c)), heq, hlen, by omega, hpf, ?_⟩
  intro us2 k2 hus2 hk21 hk2sum
  have hnd2 : (R.filter (fun c => !(w.contains c))).Nodup := hnd.filter _
  have hlen2 : (R.filter (fun c => !(w.contains c))).length = R.length - k := by
    omega
  have hk2le : k2 ≤ (R.filter (fun c => !(w.contains c))).length := by
    omega
  have hne2 : (R.filter (fun c => !(w.contains c))) ≠ [] := by
    intro hnil
    rw [hnil] at hlen2
    simp at hlen2
    omega
  rcases draw_lottery_ok_spec hus2 k2 ⟨R.filter (fun c => !(w.contains c)), W ++ w⟩
      hne2 hk2le with ⟨w2, hlen2b, heq2, fin2, hperm2⟩
  have hpf2 : (R.filter (fun c => !(w.contains c))).Perm
      (w2 ++ (R.filter (fun c => !(w.contains c))).filter
        (fun c => !(w2.contains c))) :=
    perm_filter_of_nodup hnd2 hperm2
  have hlen3 : (R.filter (fun c => !(w.contains c))).length =
      w2.length + ((R.filter (fun c => !(w.contains c))).filter
        (fun c => !(w2.contains c))).length := by
    simpa [List.length_append] using hpf2.length_eq
  refine ⟨w2, _, heq2, hlen2b, ?_⟩
  show ((R.filter (fun c => !(w.contains c))).filter
      (fun c => !(w2.contains c))).length = R.length - k - k2
  omega

/-- C1 witness: one draw from the three-candidate roster of the spec's
example, followed by a second draw of one from the remainder. -/
theorem C1_draw_partitions_nodup_roster_witness :
    ∃ w rem, draw_lottery usZero (1 : ℕ) ⟨[cA, cB, cC], []⟩ =
        Except.ok (w, ⟨rem, [] ++ w⟩) ∧
      w.length = 1 ∧ rem.length = [cA, cB, cC].length - 1 ∧
      ([cA, cB, cC] : List Candidate).Perm (w ++ rem) ∧
      ∀ (us2 : ℕ → ℚ) (k2 : ℕ), validUniform us2 → 1 ≤ k2 →
        1 + k2 ≤ [cA, cB, cC].length →
        ∃ w2 rem2, draw_lottery us2 (k2 : ℤ) ⟨rem, [] ++ w⟩ =
            Except.ok (w2, ⟨rem2, ([] ++ w) ++ w2⟩) ∧
          w2.length = k2 ∧ rem2.length = [cA, cB, cC].length - 1 - k2 :=
  C1_draw_partitions_nodup_roster usZero [cA, cB, cC] [] 1 (by decide)
    usZero_valid (by decide) (by decide)

/-- C2: the sampling loop runs exactly k sequential steps.  With at least
k + 1 candidates left, the next step computes the weights over the
current pool, picks the index whose cumulative-weight interval contains
the scaled uniform draw (so index i is selected exactly on an interval of
length weight_i out of the total weight — probability weight_i / total),
places that candidate at the head of the result (draw order, first drawn
at index 0), and erases exactly that candidate from the pool before the
remaining k steps run. -/
theorem C2_sequential_reweighted_steps (us : ℕ → ℚ) (pool : List Candidate)
    (k step : ℕ) (hus : validUniform us) (hk : k + 1 ≤ pool.length) :
    (∃ hidx : chooseIdx (pool.map weight) (us step * (pool.map weight).sum) <
        pool.length,
      ∃ sel fin,
        weightedSampleAux us step (k + 1) pool =
          some (pool.get ⟨chooseIdx (pool.map weight)
            (us step * (pool.map weight).sum), hidx⟩ :: sel, fin) ∧
        weightedSampleAux us (step + 1) k
            (pool.erase (pool.get ⟨chooseIdx (pool.map weight)
              (us step * (pool.map weight).sum), hidx⟩)) = some (sel, fin) ∧
        sel.length = k) ∧
    (∀ i : ℕ, ∀ r : ℚ, 0 ≤ r →
      (chooseIdx (pool.map weight) r = i ∧ i < pool.length ↔
        ((pool.map weight).take i).sum ≤ r ∧
          r < ((pool.map weight).take (i + 1)).sum)) := by
  constructor
  · match pool, hk with
    | p :: ps, hk =>
      have hne : (p :: ps : List Candidate) ≠ [] := by simp
      have hidx : chooseIdx ((p :: ps).map weight)
          (us step * ((p :: ps).map weight).sum) < (p :: ps).length :=
        chooseIdx_lt_length hus step hne
      have hchosen : (p :: ps).getD (chooseIdx ((p :: ps).map weight)
            (us step * ((p :: ps).map weight).sum)) defaultCandidate =
          (p :: ps).get ⟨_, hidx⟩ :=
        List.getD_eq_get _ _ hidx
      have hmem : (p :: ps).getD (chooseIdx ((p :: ps).map weight)
            (us step * ((p :: ps).map weight).sum)) defaultCandidate ∈
          p :: ps := by
        rw [hchosen]
        exact List.get_mem _ _ _
      have herase := List.length_erase_of_mem hmem
      have hk2 : k ≤ ((p :: ps).erase ((p :: ps).getD
          (chooseIdx ((p :: ps).map weight)
            (us step * ((p :: ps).map weight).sum)) defaultCandidate)).length := by
        rw [herase]
        simp only [List.length_cons] at hk ⊢
        omega
      rcases weightedSampleAux_spec hus k (step + 1) _ hk2 with
        ⟨sel, fin, heq, hlen, -⟩
      refine ⟨hidx, sel, fin, ?_, ?_, hlen⟩
      · simp only [weightedSampleAux]
        rw [← hchosen, heq]
        rfl
      · rw [← hchosen]
        exact heq
  · intro i r hr0
    have := chooseIdx_interval (map_weight_pos pool) hr0 i
    simpa [List.length_map] using this

/-- C2 witness: one step over the pool `[cA, cB]` with the zero stream. -/
theorem C2_sequential_reweighted_steps_witness :
    (∃ hidx : chooseIdx ([cA, cB].map weight)
        (usZero 0 * ([cA, cB].map weight).sum) < ([cA, cB] : List Candidate).length,
      ∃ sel fin,
        weightedSampleAux usZero 0 (0 + 1) [cA, cB] =
          some (([cA, cB] : List Candidate).get ⟨chooseIdx ([cA, cB].map weight)
            (usZero 0 * ([cA, cB].map weight).sum), hidx⟩ :: sel, fin) ∧
        weightedSampleAux usZero (0 + 1) 0
            (([cA, cB] : List Candidate).erase
              (([cA, cB] : List Candidate).get ⟨chooseIdx ([cA, cB].map weight)
                (usZero 0 * ([cA, cB].map weight).sum), hidx⟩)) =
          some (sel, fin) ∧
        sel.length = 0) ∧
    (∀ i : ℕ, ∀ r : ℚ, 0 ≤ r →
      (chooseIdx ([cA, cB].map weight) r = i ∧
          i < ([cA, cB] : List Candidate).length ↔
        (([cA, cB].map weight).take i).sum ≤ r ∧
          r < (([cA, cB].map weight).take (i + 1)).sum)) :=
  C2_sequential_reweighted_steps usZero [cA, cB] 0 0 usZero_valid (by decide)

/-- C5: over a pool of exactly one "7820" candidate and one candidate of
any other department, the "7820" candidate's weight share is exactly 2/3,
and in either pool order the uniform draws u in [0,1) that select the
"7820" candidate form exactly an interval of measure 2/3 — twice the
other candidate's measure. -/
theorem C5_dept7820_selected_two_thirds (c78 cO : Candidate)
    (h78 : c78.deptId = "7820") (hO : cO.deptId ≠ "7820") :
    weight c78 / ([c78, cO].map weight).sum = 2 / 3 ∧
    (∀ u : ℚ, 0 ≤ u → u < 1 →
      (chooseIdx ([c78, cO].map weight)
          (u * ([c78, cO].map weight).sum) = 0 ↔ u < 2 / 3)) ∧
    (∀ u : ℚ, 0 ≤ u → u < 1 →
      (chooseIdx ([cO, c78].map weight)
          (u * ([cO, c78].map weight).sum) = 1 ↔ 1 / 3 ≤ u)) := by
  have hw78 : weight c78 = 2 := by simp [weight, h78]
  have hwO : weight cO = 1 := by simp [weight, hO]
  refine ⟨?_, ?_, ?_⟩
  · rw [show ([c78, cO].map weight).sum = weight c78 + weight cO by simp]
    rw [hw78, hwO]
    norm_num
  · intro u h0 h1
    rw [show ([c78, cO].map weight).sum = weight c78 + weight cO by simp]
    simp only [List.map_cons, List.map_nil, hw78, hwO]
    unfold chooseIdx
    constructor
    · intro hc
      by_contra hcon
      rw [if_neg (by nlinarith)] at hc
      exact Nat.succ_ne_zero _ hc
    · intro hlt
      rw [if_pos (by nlinarith)]
  · intro u h0 h1
    rw [show ([cO, c78].map weight).sum = weight cO + weight c78 by simp]
    simp only [List.map_cons, List.map_nil, hwO, hw78]
    unfold chooseIdx
    constructor
    · intro hc
      by_contra hcon
      push_neg at hcon
      rw [if_pos (by nlinarith)] at hc
      exact Nat.noConfusion hc
    · intro hge
      rw [if_neg (by nlinarith)]
      unfold chooseIdx
      rw [if_pos (by nlinarith)]

/-- C5 witness: the concrete 7820 candidate `cA` against `cB`. -/
theorem C5_dept7820_selected_two_thirds_witness :
    weight cA / ([cA, cB].map weight).sum = 2 / 3 ∧
    (∀ u : ℚ, 0 ≤ u → u < 1 →
      (chooseIdx ([cA, cB].map weight)
          (u * ([cA, cB].map weight).sum) = 0 ↔ u < 2 / 3)) ∧
    (∀ u : ℚ, 0 ≤ u → u < 1 →
      (chooseIdx ([cB, cA].map weight)
          (u * ([cB, cA].map weight).sum) = 1 ↔ 1 / 3 ≤ u)) :=
  C5_dept7820_selected_two_thirds cA cB (by decide) (by decide)

theorem applyOp_preserves_disjoint (s : LotteryState) (o : LotteryOp)
    (h : s.lottery_candidates.Disjoint s.lottery_winners) :
    (applyOp s o).lottery_candidates.Disjoint
      (applyOp s o).lottery_winners := by
  cases o with
  | upload rows =>
    intro a ha hw
    simp [applyOp, upload_lottery_file] at hw
  | reset =>
    intro a ha hw
    simp [applyOp, reset_lottery] at hw
  | draw us n =>
    simp only [applyOp]
    cases hd : draw_lottery us n s with
    | error e => exact h
    | ok p =>
      rcases p with ⟨w, s2⟩
      rcases draw_lottery_ok_inv hd with ⟨hc, hw⟩
      intro a ha haw
      rw [hc] at ha
      rw [hw] at haw
      rcases List.mem_filter.mp ha with ⟨hal, hpa⟩
      have hnotw : a ∉ w := by simpa using hpa
      rcases List.mem_append.mp haw with h1 | h2
      · exact h hal h1
      · exact hnotw h2

/-- C6: in every state reachable from startup by any sequence of upload,
draw and reset calls, the roster and the winners list are disjoint: no
candidate value belongs to both. -/
theorem C6_roster_winners_disjoint (ops : List LotteryOp) :
    (runOps ops).lottery_candidates.Disjoint
      (runOps ops).lottery_winners := by
  have hgen : ∀ (l : List LotteryOp) (s : LotteryState),
      s.lottery_candidates.Disjoint s.lottery_winners →
      (l.foldl applyOp s).lottery_candidates.Disjoint
        (l.foldl applyOp s).lottery_winners := by
    intro l
    induction l with
    | nil => exact fun s hs => hs
    | cons o os ih =>
      intro s hs
      exact ih _ (applyOp_preserves_disjoint s o hs)
  exact hgen ops initState (by intro a ha hw; cases ha)

/-- C6 witness: the invariant at the initial state. -/
theorem C6_roster_winners_disjoint_witness :
    (runOps []).lottery_candidates.Disjoint (runOps []).lottery_winners :=
  C6_roster_winners_disjoint []

/-- C8: ingestion keeps exactly the rows in which both the department id
and the name cells are truthy, cleans both cells with `clean_text`
(spreadsheet carriage-return artifacts replaced by spaces, ends
stripped), and computes `fullName` once at ingestion as
`deptId ++ " - " ++ name` from the cleaned values. -/
theorem C8_ingestion_filters_and_normalizes
    (rows : List (Option String × Option String)) (s : LotteryState) :
    (upload_lottery_file rows s).lottery_candidates =
      (rows.filter (fun r => cellTruthy r.1 && cellTruthy r.2)).map
        (fun r =>
          { deptId := clean_text (r.1.getD ""),
            name := clean_text (r.2.getD ""),
            fullName := clean_text (r.1.getD "") ++ " - " ++
              clean_text (r.2.getD "") }) ∧
    ∀ c ∈ (upload_lottery_file rows s).lottery_candidates,
      c.fullName = c.deptId ++ " - " ++ c.name := by
  have hmain : ∀ rs : List (Option String × Option String),
      rs.filterMap rowCandidate =
        (rs.filter (fun r => cellTruthy r.1 && cellTruthy r.2)).map
          (fun r =>
            { deptId := clean_text (r.1.getD ""),
              name := clean_text (r.2.getD ""),
              fullName := clean_text (r.1.getD "") ++ " - " ++
                clean_text (r.2.getD "") }) := by
    intro rs
    induction rs with
    | nil => rfl
    | cons r rs ih =>
      rcases r with ⟨o1, o2⟩
      rcases o1 with _ | d
      · simpa [rowCandidate, cellTruthy] using ih
      · rcases o2 with _ | n
        · simpa [rowCandidate, cellTruthy] using ih
        · by_cases hd : d = ""
          · simp [rowCandidate, cellTruthy, hd, ih]
          · by_cases hn : n = ""
            · simp [rowCandidate, cellTruthy, hd, hn, ih]
            · simp [rowCandidate, cellTruthy, hd, hn, ih]
  constructor
  · exact hmain rows
  · intro c hc
    unfold upload_lottery_file at hc
    rw [hmain rows] at hc
    rcases List.mem_map.mp hc with ⟨r, -, rfl⟩
    rfl

/-- C8 witness: a roster with one blank-cell row (dropped) and one row
carrying a carriage-return artifact (cleaned). -/
theorem C8_ingestion_filters_and_normalizes_witness :
    (upload_lottery_file [(some "7820", none), (some "7820", some "A_x000D_")]
        initState).lottery_candidates =
      (([(some "7820", none), (some "7820", some "A_x000D_")].filter
        (fun r => cellTruthy r.1 && cellTruthy r.2)).map
        (fun r =>
          { deptId := clean_text (r.1.getD ""),
            name := clean_text (r.2.getD ""),
            fullName := clean_text (r.1.getD "") ++ " - " ++
              clean_text (r.2.getD "") })) ∧
    ∀ c ∈ (upload_lottery_file
        [(some "7820", none), (some "7820", some "A_x000D_")]
        initState).lottery_candidates,
      c.fullName = c.deptId ++ " - " ++ c.name :=
  C8_ingestion_filters_and_normalizes
    [(some "7820", none), (some "7820", some "A_x000D_")] initState

end YearEndParty
